import Mathlib

/-!
msdetide: tidal correction of miniSEED records.

A shallow embedding of `src/msdetide.c` (`detide_record` and `main`) and the
properties of it that the specification states.

Conventions of the embedding:

* a `double` is a value of `Double`: a finite number, an infinity or a NaN.
  Every arithmetic operation of the program on doubles is one operation of
  IEEE 754 binary64 in the default rounding mode: the exact result is rounded
  to the nearest double, a tie to the one with the even significand
  (`round_to_double`), with gradual underflow and with overflow to an
  infinity. Each operation is rounded on its own (no fused multiply-add, no
  extended precision). The sign of a zero is not kept;
* `int`, `long` and `int64_t` values are integers (`ℤ`) with the C conversions
  between the types written out (`int_to_double`, `double_to_int`,
  `long_to_int`);
* the sample buffer `msr->datasamples` is a `List ℤ`; an access outside the
  buffer and a `double`-to-`int` conversion that C leaves undefined are
  reported as a `Fault`;
* the loop counter `n` of `detide_record` is a natural number (a record
  holds far fewer than `2^31` samples);
* everything the program takes from libmseed and libtidal (macros, constants
  and functions that are not in the source file) is a field of `Env`;
* diagnostics written with `ms_log` at the verbose levels are left out; the
  error messages of the driver loop are kept as the list of the `rc` values
  they report.
-/

namespace Msdetide

/-! ## Data model -/

/-- A value of the C type `double`. A finite value is given by the number it
stands for. -/
inductive Double where
  | finite (value : ℚ)
  | inf (negative : Bool)
  | nan
deriving DecidableEq, Repr

/-- One harmonic constituent, the `tidal_t` of libtidal as `main` fills it. -/
structure tidal_t where
  name : String
  amplitude : Double
  lag : Double
deriving DecidableEq, Repr

/-- The fields of libmseed's `MSRecord` that `detide_record` reads or writes.
The character array `channel` is the list of its characters, `samplecnt` is
the sample count of the record header, `numsamples` the number of decoded
samples in `datasamples`. -/
structure MSRecord where
  channel : List Char
  starttime : ℤ
  samprate : Double
  samplecnt : ℤ
  numsamples : ℤ
  sampletype : Char
  datasamples : List ℤ
deriving DecidableEq, Repr

/-- One output record handed to `record_handler`, as its bytes. -/
abbrev Bytes := List Nat

/-- What one call of `mst_packgroup` does: the records it hands to
`record_handler` in order, its return value and the sample count it stores
through the `packedsamples` pointer. -/
structure PackResult where
  records : List Bytes
  precords : ℤ
  psamples : ℤ
deriving DecidableEq, Repr

/-- The program variables of `msdetide.c` (file-scope statics). -/
structure Globals where
  verbose : ℤ
  orient : Option String
  alpha : Double
  beta : Double
  zone : Double
  latitude : Double
  num_tides : Nat
  tides : List tidal_t
deriving DecidableEq, Repr

/-- The parts of libmseed and libtidal the program uses; none of them is
defined in the source file, so each is a parameter. `MS_HPTIME2EPOCH` is the
macro together with the cast to `double` of line 114; `libtidal_height` gives
the height it stores through its last argument; `mst_initgroup` tells whether
the group could be allocated in the call for this record; `mst_packgroup` is
what `mst_addmsrtogroup` and `mst_packgroup` do with a fresh group that holds
this record. -/
structure Env where
  LIBTIDAL_MAX_CONSTITUENTS : Nat
  LIBTIDAL_CHARLEN : Nat
  MS_HPTIME2EPOCH : ℤ → Double
  libtidal_height : Nat → List tidal_t → Double → Double → Double → Double
  mst_initgroup : MSRecord → Bool
  mst_packgroup : MSRecord → PackResult

/-- Undefined behaviour of the C program made observable. -/
inductive Fault where
  | out_of_bounds
  | int_conversion
deriving DecidableEq, Repr

/-- Equality of the outcomes of a call is decidable. -/
instance instDecidableEqExcept {ε α : Type} [DecidableEq ε] [DecidableEq α] :
    DecidableEq (Except ε α) := fun a b =>
  match a, b with
  | .ok x, .ok y =>
    if h : x = y then isTrue (by rw [h]) else isFalse (fun e => h (by injection e))
  | .error x, .error y =>
    if h : x = y then isTrue (by rw [h]) else isFalse (fun e => h (by injection e))
  | .ok _, .error _ => isFalse (fun e => by injection e)
  | .error _, .ok _ => isFalse (fun e => by injection e)

/-- What one call of `detide_record` leaves behind: the record after the
in-place update, the value returned, the number of `mst_packgroup` calls and
the records written to standard output by `record_handler`. -/
structure DetideResult where
  msr : MSRecord
  ret : ℤ
  packcalls : Nat
  output : List Bytes
deriving DecidableEq, Repr

/-! ## Arithmetic of the C program -/

def INT_MIN : ℤ := -2147483648

def INT_MAX : ℤ := 2147483647

/-- The integer nearest to `q`, a tie going to the even neighbour. -/
def rint_value (q : ℚ) : ℤ :=
  let f := q.num / (q.den : ℤ)
  let r := q.num % (q.den : ℤ)
  if 2 * r < q.den then f
  else if (q.den : ℤ) < 2 * r then f + 1
  else if f % 2 = 0 then f else f + 1

/-- The number of halvings that bring `n` below 2, in at most `steps` steps. -/
def log2_steps : Nat → Nat → Nat
  | 0, _ => 0
  | steps + 1, n => if n < 2 then 0 else log2_steps steps (n / 2) + 1

/-- The position of the leading binary digit of `n`; `n` steps are enough. -/
def nat_log2 (n : Nat) : Nat := log2_steps n n

/-- The binary exponent of `q ≠ 0`: the `k` with `2^k ≤ |q| < 2^(k+1)`. -/
def ilog2 (q : ℚ) : ℤ :=
  let k : ℤ := (nat_log2 q.num.natAbs : ℤ) - (nat_log2 q.den : ℤ)
  if (2 : ℚ) ^ k ≤ |q| then k else k - 1

/-- The rounding of IEEE 754 binary64 in the default mode: the double nearest
to `q`, a tie going to the even significand. The significand has 53 bits, the
least exponent is `-1022` (below it the spacing stays `2^(-1074)`), and a
result of `2^1024` or more in size is an infinity. -/
def round_to_double (q : ℚ) : Double :=
  if q = 0 then .finite 0
  else
    let e := max (ilog2 q) (-1022)
    let ulp : ℚ := 2 ^ (e - 52)
    let m := rint_value (q / ulp)
    if (2 : ℚ) ^ (1024 : ℤ) ≤ |(m : ℚ) * ulp| then .inf (decide (q < 0))
    else .finite ((m : ℚ) * ulp)

/-- The sum `x + y` of two doubles. -/
def fadd : Double → Double → Double
  | .finite a, .finite b => round_to_double (a + b)
  | .finite _, .inf s => .inf s
  | .inf s, .finite _ => .inf s
  | .inf s, .inf t => if s = t then .inf s else .nan
  | _, _ => .nan

/-- The difference `x - y` of two doubles. -/
def fsub : Double → Double → Double
  | .finite a, .finite b => round_to_double (a - b)
  | .finite _, .inf s => .inf (!s)
  | .inf s, .finite _ => .inf s
  | .inf s, .inf t => if s = t then .nan else .inf s
  | _, _ => .nan

/-- The product `x * y` of two doubles. -/
def fmul : Double → Double → Double
  | .finite a, .finite b => round_to_double (a * b)
  | .finite a, .inf s => if a = 0 then .nan else .inf (decide (a < 0) != s)
  | .inf s, .finite b => if b = 0 then .nan else .inf (s != decide (b < 0))
  | .inf s, .inf t => .inf (s != t)
  | _, _ => .nan

/-- The quotient `x / y` of two doubles. -/
def fdiv : Double → Double → Double
  | .finite a, .finite b =>
    if b = 0 then (if a = 0 then .nan else .inf (decide (a < 0)))
    else round_to_double (a / b)
  | .finite _, .inf _ => .finite 0
  | .inf s, .finite b => .inf (s != decide (b < 0))
  | _, _ => .nan

/-- The cast `(double) n` of an `int`: every `int` is a double. -/
def int_to_double (n : ℤ) : Double := .finite (n : ℚ)

/-- The C library's `rint` in the default rounding mode (the program never
changes it): the nearest integral double, a tie going to the even
neighbour; an infinity or a NaN is returned as it is. -/
def rint : Double → Double
  | .finite q => .finite ((rint_value q : ℤ) : ℚ)
  | .inf s => .inf s
  | .nan => .nan

/-- The cast `(int) x` of a double: the value cut towards zero, defined only
when that is inside the range of `int`. -/
def double_to_int : Double → Option ℤ
  | .finite q =>
    if INT_MIN ≤ Int.tdiv q.num q.den ∧ Int.tdiv q.num q.den ≤ INT_MAX then
      some (Int.tdiv q.num q.den)
    else none
  | _ => none

/-- The conversion of the `long` value `psamples` to the `int` that
`detide_record` returns: reduction modulo `2^32` into the range of `int`. -/
def long_to_int (x : ℤ) : ℤ :=
  (x + 2147483648) % 4294967296 - 2147483648

/-- The character `*orient`: the first one of the string, the terminating NUL
for an empty string. -/
def deref (s : String) : Char :=
  s.data.headD (Char.ofNat 0)

/-! ## detide_record -/

/-- The argument of `rint` on line 117 for the sample `x` at index `n`:
`(double) datasamples[n] - (alpha + beta * height)`, with `height` as
`libtidal_height` stores it on line 116 for the epoch
`epoch + (double) n / samprate`; each of the five operations is rounded. -/
def detided (env : Env) (g : Globals) (samprate epoch : Double) (n : Nat) (x : ℤ) : Double :=
  let height :=
    env.libtidal_height g.num_tides g.tides
      (fadd epoch (fdiv (int_to_double n) samprate)) g.latitude g.zone
  fsub (int_to_double x) (fadd g.alpha (fmul g.beta height))

/-- The value `(int) rint(...)` that line 117 stores for the sample `x` at
index `n`; `none` where the conversion to `int` is undefined. -/
def corrected (env : Env) (g : Globals) (samprate epoch : Double) (n : Nat) (x : ℤ) :
    Option ℤ :=
  double_to_int (rint (detided env g samprate epoch n x))

/-- The `for` loop of `detide_record` (lines 115-118), run for `remaining` more
iterations from index `n`. -/
def detide_loop (env : Env) (g : Globals) (samprate epoch : Double) :
    Nat → Nat → List ℤ → Except Fault (List ℤ)
  | 0, _, buf => .ok buf
  | remaining + 1, n, buf =>
    match buf[n]? with
    | none => .error .out_of_bounds
    | some x =>
      match corrected env g samprate epoch n x with
      | none => .error .int_conversion
      | some y => detide_loop env g samprate epoch remaining (n + 1) (buf.set n y)

/-- Lines 111-112: the third channel character becomes `*orient` unless
`orient` is `NULL`. The array of libmseed has more than three characters, so
the assignment is always inside it. -/
def set_orient (g : Globals) (msr : MSRecord) : MSRecord :=
  match g.orient with
  | some s => { msr with channel := msr.channel.set 2 (deref s) }
  | none => msr

/-- Lines 120-129: the trace group is created, the record is packed, the
records go to `record_handler`, and `psamples` is returned; `precords` is
assigned and not used. -/
def pack_record (env : Env) (msr : MSRecord) : DetideResult :=
  if env.mst_initgroup msr = false then ⟨msr, -1, 0, []⟩
  else
    let packed := env.mst_packgroup msr
    ⟨msr, long_to_int packed.psamples, 1, packed.records⟩

/-- The function `detide_record` of `msdetide.c`. -/
def detide_record (env : Env) (g : Globals) (msr : MSRecord) : Except Fault DetideResult :=
  if msr.samplecnt < 1 then .ok ⟨msr, 0, 0, []⟩
  else if msr.sampletype ≠ 'i' then .ok ⟨msr, 0, 0, []⟩
  else if msr.samprate = .finite 0 then .ok ⟨msr, 0, 0, []⟩
  else
    let msr1 := set_orient g msr
    let epoch := env.MS_HPTIME2EPOCH msr1.starttime
    match detide_loop env g msr1.samprate epoch msr1.numsamples.toNat 0 msr1.datasamples with
    | .error f => .error f
    | .ok buf => .ok (pack_record env { msr1 with datasamples := buf })

/-! ## Predicates used in the statements -/

/-- The record passes the validity gate of `detide_record` (lines 98-108):
none of the three early `return 0` is taken. -/
def passes_gate (msr : MSRecord) : Prop :=
  1 ≤ msr.samplecnt ∧ msr.sampletype = 'i' ∧ msr.samprate ≠ .finite 0

instance (msr : MSRecord) : Decidable (passes_gate msr) := by
  unfold passes_gate
  infer_instance

/-- The buffer holds at least `numsamples` entries. -/
def in_bounds (msr : MSRecord) : Prop :=
  msr.numsamples ≤ (msr.datasamples.length : ℤ)

instance (msr : MSRecord) : Decidable (in_bounds msr) := by
  unfold in_bounds
  infer_instance

/-- Every conversion `(int) rint(...)` of line 117 is one that C defines: the
value handed to the cast is finite and, cut towards zero, inside the range of
`int`. -/
def conversions_defined (env : Env) (g : Globals) (msr : MSRecord) : Prop :=
  ∀ (n : ℕ) (x : ℤ), (n : ℤ) < msr.numsamples → msr.datasamples[n]? = some x →
    ∃ y, corrected env g msr.samprate (env.MS_HPTIME2EPOCH msr.starttime) n x = some y

/-! ## main -/

/-- One option as `getopt_long` returns it in `main`, a numeric argument as
the double `atof` makes of it; for `-T` the three tokens `strtok` cuts out of
the argument, the last two after `atof`. -/
inductive Opt where
  | unknown
  | help
  | verbose
  | alpha (value : Double)
  | beta (value : Double)
  | latitude (value : Double)
  | zone (value : Double)
  | orient (optarg : String)
  | tide (label : String) (amplitude : Double) (lag : Double)
deriving DecidableEq, Repr

/-- The program variables as their initialisers leave them (lines 59-69); the
static array `tides` has `LIBTIDAL_MAX_CONSTITUENTS` zeroed entries. -/
def init_globals (env : Env) : Globals where
  verbose := 0
  orient := some "T"
  alpha := .finite 0
  beta := .finite 10
  zone := .finite 0
  latitude := .finite 0
  num_tides := 0
  tides := List.replicate env.LIBTIDAL_MAX_CONSTITUENTS ⟨"", .finite 0, .finite 0⟩

/-- The entry that lines 192-194 store for one `-T` option: the label cut to
`LIBTIDAL_CHARLEN - 1` characters by `strncpy`, the amplitude, and the lag
divided by `360.0`. -/
def tide_entry (env : Env) (label : String) (amplitude lag : Double) : tidal_t where
  name := String.mk (label.data.take (env.LIBTIDAL_CHARLEN - 1))
  amplitude := amplitude
  lag := fdiv lag (.finite 360)

/-- One pass through the `switch` of the option loop (lines 154-198); an
`error` is the argument of `exit`. -/
def getopt_case (env : Env) (g : Globals) : Opt → Except ℤ Globals
  | .unknown => .error (-1)
  | .help => .error 0
  | .verbose => .ok { g with verbose := g.verbose + 1 }
  | .alpha v => .ok { g with alpha := v }
  | .beta v => .ok { g with beta := v }
  | .latitude v => .ok { g with latitude := v }
  | .zone v => .ok { g with zone := v }
  | .orient s => .ok { g with orient := some s }
  | .tide label amplitude lag =>
    if g.num_tides < env.LIBTIDAL_MAX_CONSTITUENTS then
      .ok { g with
        tides := g.tides.set g.num_tides (tide_entry env label amplitude lag)
        num_tides := g.num_tides + 1 }
    else .ok g

/-- The `while` loop over `getopt_long` (lines 153-199). -/
def getopt_loop (env : Env) : List Opt → Globals → Except ℤ Globals
  | [], g => .ok g
  | o :: os, g =>
    match getopt_case env g o with
    | .error status => .error status
    | .ok g1 => getopt_loop env os g1

/-- The value of `rc` when the read loop of one source is left. -/
inductive RC where
  | MS_NOERROR
  | MS_ENDOFFILE
  | error (code : ℤ)
deriving DecidableEq, Repr

/-- How a source ends: the first value `ms_readmsr` returns that is not
`MS_NOERROR`. -/
inductive ReadEnd where
  | MS_ENDOFFILE
  | error (code : ℤ)
deriving DecidableEq, Repr

def ReadEnd.rc : ReadEnd → RC
  | .MS_ENDOFFILE => .MS_ENDOFFILE
  | .error code => .error code

/-- One input source as `ms_readmsr` delivers it: the records returned with
`MS_NOERROR`, in order, then the return value that ends the source. -/
structure Source where
  records : List MSRecord
  last : ReadEnd
deriving DecidableEq, Repr

/-- Standard output and the error log of the driver loop. -/
structure Streams where
  output : List Bytes
  errors : List RC
deriving DecidableEq, Repr

/-- The inner `while` loop of `main` (lines 216-221): the records written and
the value of `rc` on leaving the loop. -/
def read_loop (env : Env) (g : Globals) (last : ReadEnd) :
    List MSRecord → List Bytes → Except Fault (List Bytes × RC)
  | [], out => .ok (out, last.rc)
  | msr :: rest, out =>
    match detide_record env g msr with
    | .error f => .error f
    | .ok d =>
      if d.ret < 0 then .ok (out ++ d.output, .MS_NOERROR)
      else read_loop env g last rest (out ++ d.output)

/-- The body of the `do` loop of `main` for one source (lines 213-226). -/
def process_source (env : Env) (g : Globals) (s : Source) (st : Streams) :
    Except Fault Streams :=
  match read_loop env g s.last s.records st.output with
  | .error f => .error f
  | .ok (out, rc) =>
    if rc ≠ .MS_ENDOFFILE then .ok ⟨out, st.errors ++ [rc]⟩
    else .ok ⟨out, st.errors⟩

/-- The iterations of the `do` loop for the sources in `argv` order. -/
def driver_loop (env : Env) (g : Globals) : List Source → Streams → Except Fault Streams
  | [], st => .ok st
  | s :: rest, st =>
    match process_source env g s st with
    | .error f => .error f
    | .ok st1 => driver_loop env g rest st1

/-- The sources the `do ... while ((++optind) < argc)` loop visits: the file
arguments in order, standard input when there is none. -/
def sources (files : List Source) (stdin : Source) : List Source :=
  match files with
  | [] => [stdin]
  | f :: fs => f :: fs

/-- The driver loop of `main` (lines 212-227). -/
def driver (env : Env) (g : Globals) (files : List Source) (stdin : Source) :
    Except Fault Streams :=
  driver_loop env g (sources files stdin) ⟨[], []⟩

/-- The result of a run of `main`: the process status with what was written. -/
structure MainResult where
  status : ℤ
  output : List Bytes
  errors : List RC
deriving DecidableEq, Repr

/-- The function `main` of `msdetide.c`. -/
def main (env : Env) (opts : List Opt) (files : List Source) (stdin : Source) :
    Except Fault MainResult :=
  match getopt_loop env opts (init_globals env) with
  | .error status => .ok ⟨status, [], []⟩
  | .ok g =>
    match driver env g files stdin with
    | .error f => .error f
    | .ok st => .ok ⟨0, st.output, st.errors⟩

/-! ## Observations used in the statements about main -/

/-- The arguments of the `-T` options of an option list, in the order given. -/
def tide_args : List Opt → List (String × Double × Double)
  | [] => []
  | .tide label amplitude lag :: os => (label, amplitude, lag) :: tide_args os
  | _ :: os => tide_args os

/-- The call of `detide_record` on this record has defined behaviour. -/
def defined (env : Env) (g : Globals) (msr : MSRecord) : Prop :=
  ∃ d, detide_record env g msr = .ok d

/-- The test whether a call ended normally. -/
def is_ok (r : Except Fault DetideResult) : Bool :=
  match r with
  | .ok _ => true
  | .error _ => false

/-- The value `detide_record` returns for a record. -/
def record_ret (env : Env) (g : Globals) (msr : MSRecord) : ℤ :=
  match detide_record env g msr with
  | .ok d => d.ret
  | .error _ => 0

/-- The records `detide_record` writes to standard output for a record. -/
def record_output (env : Env) (g : Globals) (msr : MSRecord) : List Bytes :=
  match detide_record env g msr with
  | .ok d => d.output
  | .error _ => []

/-- The records of a source that reach `detide_record`: those before the first
negative return value, and the record that gave it. -/
def processed (env : Env) (g : Globals) (records : List MSRecord) : List MSRecord :=
  records.takeWhile (fun r => decide (0 ≤ record_ret env g r)) ++
    ((records.dropWhile (fun r => decide (0 ≤ record_ret env g r))).head?).toList

/-- What one source contributes to standard output. -/
def source_output (env : Env) (g : Globals) (s : Source) : List Bytes :=
  ((processed env g s.records).map (record_output env g)).flatten

/-- The value of `rc` that is logged as a read error after a source, if any:
`MS_NOERROR` after a negative return value of `detide_record`, the error code
after a decode error, nothing after end of file. -/
def source_error (env : Env) (g : Globals) (s : Source) : Option RC :=
  if s.records.any (fun r => decide (record_ret env g r < 0)) then some .MS_NOERROR
  else
    match s.last with
    | .MS_ENDOFFILE => none
    | .error code => some (.error code)

/-! ## Example data -/

/-- An environment for the examples: epochs in microseconds, a predictor that
returns the height 5 at every epoch, a packer that writes one record holding
the samples. -/
def env_ex : Env where
  LIBTIDAL_MAX_CONSTITUENTS := 2
  LIBTIDAL_CHARLEN := 8
  MS_HPTIME2EPOCH := fun t => fdiv (round_to_double (t : ℚ)) (.finite 1000000)
  libtidal_height := fun _ _ _ _ _ => .finite 5
  mst_initgroup := fun _ => true
  mst_packgroup := fun m => ⟨[m.datasamples.map Int.toNat], 1, m.numsamples⟩

/-- The globals with offset `alpha = 1` and scale `beta = 2`. -/
def g_ex : Globals := ⟨0, some "T", .finite 1, .finite 2, .finite 0, .finite 0, 0, []⟩

/-- The record of the scenario: three samples of 100 at one sample a second. -/
def r_ex : MSRecord := ⟨['B', 'T', 'Z'], 0, .finite 1, 3, 3, 'i', [100, 100, 100]⟩

/-- Three `-T` options around a `-v`, for an array of two constituents. -/
def opts_ex : List Opt :=
  [.tide "M2" (.finite 1) (.finite 180), .verbose, .tide "S2" (.finite 2) (.finite 90),
    .tide "N2" (.finite 3) (.finite 45)]

/-- A source that ends with a decode error after one record. -/
def src_bad : Source :=
  ⟨[⟨['B', 'T', 'Z'], 0, .finite 1, 3, 3, 'i', [100, 100, 100]⟩], .error (-2)⟩

/-- A well-formed source: a record, a record that is skipped, a record. -/
def src_good : Source :=
  ⟨[⟨['B', 'T', 'Z'], 0, .finite 1, 3, 3, 'i', [100, 100, 100]⟩,
    ⟨['B', 'T', 'Z'], 0, .finite 1, 0, 0, 'i', []⟩,
    ⟨['B', 'T', 'Z'], 3000000, .finite 1, 2, 2, 'i', [70, 80]⟩], .MS_ENDOFFILE⟩

/-- An empty standard input. -/
def src_stdin : Source := ⟨[], .MS_ENDOFFILE⟩

/-- A record with no sample in its header. -/
def r_empty : MSRecord := ⟨['B', 'T', 'Z'], 0, .finite 1, 0, 0, 'i', []⟩

/-- A record whose header counts one sample and whose decoded count is zero. -/
def r_undecoded : MSRecord := ⟨['B', 'T', 'Z'], 0, .finite 1, 1, 0, 'i', [7]⟩

/-- The globals with offset `alpha = 1/2` and scale `beta = 0`. -/
def g_half : Globals :=
  ⟨0, some "T", .finite (1 / 2), .finite 0, .finite 0, .finite 0, 0, []⟩

/-- The globals with offset `alpha = 0` and scale `beta = 0`. -/
def g_zero : Globals := ⟨0, some "T", .finite 0, .finite 0, .finite 0, .finite 0, 0, []⟩

/-- A record with the single sample 101. -/
def r_101 : MSRecord := ⟨['B', 'T', 'Z'], 0, .finite 1, 1, 1, 'i', [101]⟩

/-- The environment of the examples with a packer that fails: it writes no
record, returns `-1` and leaves the packed sample count at `0`. -/
def env_packfail : Env :=
  { env_ex with mst_packgroup := fun _ => ⟨[], -1, 0⟩ }

/-- The environment of the examples with a packer that fails on the first
record of the scenario (the samples `[89, 89, 89]`) and packs every other. -/
def env_packfail_first : Env :=
  { env_ex with
    mst_packgroup := fun m =>
      if m.datasamples = [89, 89, 89] then ⟨[], -1, 0⟩
      else ⟨[m.datasamples.map Int.toNat], 1, m.numsamples⟩ }

/-- A source of two records that ends with end of file. -/
def src_two : Source :=
  ⟨[⟨['B', 'T', 'Z'], 0, .finite 1, 3, 3, 'i', [100, 100, 100]⟩,
    ⟨['B', 'T', 'Z'], 3000000, .finite 1, 2, 2, 'i', [70, 80]⟩], .MS_ENDOFFILE⟩

/-- An environment whose predictor returns the height `1/4` at the epoch 1 and
the height 0 at every other epoch. -/
def env_quarter : Env :=
  { env_ex with
    libtidal_height := fun _ _ epoch _ _ =>
      if epoch = .finite 1 then .finite (1 / 4) else .finite 0 }

/-- The globals with offset `alpha = 1/2` and scale `beta = 1`. -/
def g_half_one : Globals :=
  ⟨0, some "T", .finite (1 / 2), .finite 1, .finite 0, .finite 0, 0, []⟩

/-- A record of three samples at one sample a second. -/
def r_ties : MSRecord := ⟨['B', 'T', 'Z'], 0, .finite 1, 3, 3, 'i', [101, 102, 102]⟩

/-- An environment whose predictor returns the height 1 at the epoch
`3.0 / 10.0` and the height 0 at every other epoch. -/
def env_epoch : Env :=
  { env_ex with
    libtidal_height := fun _ _ epoch _ _ =>
      if epoch = fdiv (.finite 3) (.finite 10) then .finite 1 else .finite 0 }

/-- The globals with offset `alpha = 0` and scale `beta = 1`. -/
def g_unit : Globals := ⟨0, some "T", .finite 0, .finite 1, .finite 0, .finite 0, 0, []⟩

/-- A record of four samples at ten samples a second. -/
def r_tenth : MSRecord :=
  ⟨['B', 'T', 'Z'], 0, .finite 10, 4, 4, 'i', [100, 100, 100, 100]⟩

/-- An environment whose predictor returns an infinite height. -/
def env_inf : Env :=
  { env_ex with libtidal_height := fun _ _ _ _ _ => .inf false }

/-! ## rint -/

theorem rint_fract (q : ℚ) : Int.fract q = ((q.num % (q.den : ℤ) : ℤ) : ℚ) / (q.den : ℚ) := by
  have hd : (0 : ℚ) < (q.den : ℚ) := by exact_mod_cast q.den_pos
  have hq : q = (q.num : ℚ) / (q.den : ℚ) := (Rat.num_div_den q).symm
  have hsplit : (q.num : ℚ) = (q.den : ℚ) * ((q.num / (q.den : ℤ) : ℤ) : ℚ)
      + ((q.num % (q.den : ℤ) : ℤ) : ℚ) := by
    exact_mod_cast (Int.ediv_add_emod q.num (q.den : ℤ)).symm
  rw [Int.fract, Rat.floor_def, eq_div_iff (ne_of_gt hd), sub_mul]
  have : q * (q.den : ℚ) = (q.num : ℚ) := by
    nth_rewrite 1 [hq]
    field_simp
  rw [this]
  linarith

/-- The integer `rint_value` gives, in terms of the floor and the fractional
part of its argument. -/
theorem rint_floor (q : ℚ) :
    rint_value q = if Int.fract q < 1 / 2 then ⌊q⌋
      else if 1 / 2 < Int.fract q then ⌊q⌋ + 1
      else if ⌊q⌋ % 2 = 0 then ⌊q⌋ else ⌊q⌋ + 1 := by
  have hd : (0 : ℚ) < (q.den : ℚ) := by exact_mod_cast q.den_pos
  have h1 : (2 * (q.num % (q.den : ℤ)) < (q.den : ℤ)) ↔ Int.fract q < 1 / 2 := by
    rw [rint_fract, div_lt_div_iff₀ hd (by norm_num : (0 : ℚ) < 2)]
    constructor
    · intro h
      have : ((2 * (q.num % (q.den : ℤ)) : ℤ) : ℚ) < ((q.den : ℤ) : ℚ) := by exact_mod_cast h
      push_cast at this
      linarith
    · intro h
      have : ((2 * (q.num % (q.den : ℤ)) : ℤ) : ℚ) < ((q.den : ℤ) : ℚ) := by
        push_cast
        linarith
      exact_mod_cast this
  have h2 : ((q.den : ℤ) < 2 * (q.num % (q.den : ℤ))) ↔ 1 / 2 < Int.fract q := by
    rw [rint_fract, div_lt_div_iff₀ (by norm_num : (0 : ℚ) < 2) hd]
    constructor
    · intro h
      have : ((q.den : ℤ) : ℚ) < ((2 * (q.num % (q.den : ℤ)) : ℤ) : ℚ) := by exact_mod_cast h
      push_cast at this
      linarith
    · intro h
      have : ((q.den : ℤ) : ℚ) < ((2 * (q.num % (q.den : ℤ)) : ℤ) : ℚ) := by
        push_cast
        linarith
      exact_mod_cast this
  unfold rint_value
  simp only [h1, h2, Rat.floor_def]

/-- No integer is nearer to `q` than `rint_value q`. -/
theorem rint_nearest (q : ℚ) (m : ℤ) : |((rint_value q : ℤ) : ℚ) - q| ≤ |(m : ℚ) - q| := by
  have h0 := Int.fract_nonneg q
  have h1 := Int.fract_lt_one q
  have hq : q = (⌊q⌋ : ℚ) + Int.fract q := (Int.floor_add_fract q).symm
  have hm : (m : ℚ) ≤ (⌊q⌋ : ℚ) ∨ ((⌊q⌋ : ℚ) + 1 ≤ (m : ℚ)) := by
    rcases le_or_lt m ⌊q⌋ with h | h
    · left; exact_mod_cast h
    · right; exact_mod_cast h
  have key : ∀ z : ℤ, (z = ⌊q⌋ ∧ Int.fract q ≤ 1 / 2) ∨ (z = ⌊q⌋ + 1 ∧ 1 / 2 ≤ Int.fract q) →
      |((z : ℤ) : ℚ) - q| ≤ |(m : ℚ) - q| := by
    intro z hz
    rcases hz with ⟨rfl, ht⟩ | ⟨rfl, ht⟩
    · rw [abs_le]
      rcases hm with hm | hm
      · rw [abs_of_nonpos (by linarith)]
        constructor <;> linarith
      · rw [abs_of_nonneg (by linarith)]
        constructor <;> linarith
    · push_cast
      rw [abs_le]
      rcases hm with hm | hm
      · rw [abs_of_nonpos (by linarith)]
        constructor <;> linarith
      · rw [abs_of_nonneg (by linarith)]
        constructor <;> linarith
  apply key
  rw [rint_floor]
  split_ifs with a b c
  · left; exact ⟨rfl, le_of_lt a⟩
  · right; exact ⟨rfl, le_of_lt b⟩
  · left; exact ⟨rfl, le_of_not_lt b⟩
  · right; exact ⟨rfl, le_of_not_lt a⟩

/-- A tie `k + 1/2` goes to the even one of `k` and `k + 1`. -/
theorem rint_tie (k : ℤ) : rint_value ((k : ℚ) + 1 / 2) = if k % 2 = 0 then k else k + 1 := by
  have hf : ⌊(k : ℚ) + 1 / 2⌋ = k := by
    rw [Int.floor_eq_iff]
    constructor <;> linarith
  have ht : Int.fract ((k : ℚ) + 1 / 2) = 1 / 2 := by
    rw [Int.fract, hf]; ring
  rw [rint_floor, ht, hf]
  simp

/-- An integral value is returned unchanged. -/
theorem rint_intCast (z : ℤ) : rint_value (z : ℚ) = z := by
  have ht : Int.fract (z : ℚ) = 0 := Int.fract_intCast z
  rw [rint_floor, ht, Int.floor_intCast]
  norm_num

/-! ## Doubles -/

theorem log2_steps_le : ∀ (steps n : Nat), 1 ≤ n → 2 ^ log2_steps steps n ≤ n := by
  intro steps
  induction steps with
  | zero => intro n hn; simpa [log2_steps] using hn
  | succ s ih =>
    intro n hn
    unfold log2_steps
    split
    · simpa using hn
    · have h2 : 1 ≤ n / 2 := by omega
      have := ih (n / 2) h2
      rw [pow_succ]
      omega

theorem nat_log2_one : nat_log2 1 = 0 := by decide

theorem ilog2_intCast_le (z : ℤ) (hz : z ≠ 0) (h : |z| < 2 ^ 53) : ilog2 (z : ℚ) ≤ 52 := by
  have hk : (nat_log2 z.natAbs : ℤ) ≤ 52 := by
    have h1 : 2 ^ nat_log2 z.natAbs ≤ z.natAbs :=
      log2_steps_le _ _ (Int.natAbs_pos.mpr hz)
    have h2 : z.natAbs < 2 ^ 53 := by
      have : (z.natAbs : ℤ) < 2 ^ 53 := by rw [Int.natCast_natAbs]; exact h
      exact_mod_cast this
    have h3 : 2 ^ nat_log2 z.natAbs < 2 ^ 53 := lt_of_le_of_lt h1 h2
    have := (Nat.pow_lt_pow_iff_right (by norm_num : 1 < 2)).mp h3
    omega
  unfold ilog2
  simp only [Rat.num_intCast, Rat.den_intCast, nat_log2_one, Nat.cast_zero, sub_zero]
  split <;> omega

/-- An integer below `2^53` in size is a double: rounding leaves it as it is. -/
theorem round_to_double_intCast (z : ℤ) (h : |z| < 2 ^ 53) :
    round_to_double (z : ℚ) = .finite (z : ℚ) := by
  unfold round_to_double
  by_cases hz : (z : ℚ) = 0
  · rw [if_pos hz, hz]
  · rw [if_neg hz]
    have hz' : z ≠ 0 := by exact_mod_cast hz
    have he : max (ilog2 (z : ℚ)) (-1022) ≤ 52 :=
      max_le (ilog2_intCast_le z hz' h) (by norm_num)
    generalize max (ilog2 (z : ℚ)) (-1022) = e at he
    have hulp : (2 : ℚ) ^ (e - 52) = ((2 : ℚ) ^ (52 - e).toNat)⁻¹ := by
      rw [← zpow_natCast, ← zpow_neg, Int.toNat_of_nonneg (by omega)]
      congr 1
      ring
    have hpos : (0 : ℚ) < (2 : ℚ) ^ (52 - e).toNat := by positivity
    have hdiv : (z : ℚ) / (2 : ℚ) ^ (e - 52) = ((z * 2 ^ (52 - e).toNat : ℤ) : ℚ) := by
      rw [hulp]
      push_cast
      field_simp
    have hback : ((z * 2 ^ (52 - e).toNat : ℤ) : ℚ) * (2 : ℚ) ^ (e - 52) = (z : ℚ) := by
      rw [hulp]
      push_cast
      field_simp
    simp only [hdiv, rint_intCast, hback]
    have hsmall : ¬ ((2 : ℚ) ^ (1024 : ℤ) ≤ |(z : ℚ)|) := by
      have h1 : |(z : ℚ)| < 2 ^ 53 := by
        have : ((|z| : ℤ) : ℚ) < ((2 ^ 53 : ℤ) : ℚ) := by exact_mod_cast h
        simpa using this
      have h2 : (2 : ℚ) ^ 53 ≤ (2 : ℚ) ^ (1024 : ℤ) := by norm_num
      linarith
    rw [if_neg hsmall]

theorem round_to_double_zero : round_to_double 0 = .finite 0 := by
  unfold round_to_double
  rw [if_pos rfl]

/-- A conversion to `int` of the result of `rint` is defined only for a finite
argument, and gives the integer `rint` chose. -/
theorem double_to_int_rint {d : Double} {s : ℤ} (h : double_to_int (rint d) = some s) :
    ∃ v : ℚ, d = .finite v ∧ s = rint_value v := by
  cases d with
  | finite v =>
    refine ⟨v, rfl, ?_⟩
    simp only [rint, double_to_int, Rat.num_intCast, Rat.den_intCast, Nat.cast_one,
      Int.tdiv_one] at h
    split at h
    · simp only [Option.some.injEq] at h
      exact h.symm
    · simp at h
  | inf s => simp [rint, double_to_int] at h
  | nan => simp [rint, double_to_int] at h

theorem double_to_int_intCast {x : ℤ} (h1 : INT_MIN ≤ x) (h2 : x ≤ INT_MAX) :
    double_to_int (.finite (x : ℚ)) = some x := by
  simp only [double_to_int, Rat.num_intCast, Rat.den_intCast, Nat.cast_one, Int.tdiv_one]
  rw [if_pos ⟨h1, h2⟩]

/-! ## The correction loop -/

/-- A loop that ends normally has rewritten exactly the indices
`n, ..., n + remaining - 1`, each read inside the buffer and each converted
where C defines the conversion. -/
theorem detide_loop_ok (env : Env) (g : Globals) (samprate epoch : Double) :
    ∀ (k n : Nat) (buf buf' : List ℤ),
      detide_loop env g samprate epoch k n buf = .ok buf' →
      buf'.length = buf.length ∧
      (∀ (i : ℕ) (x : ℤ), n ≤ i → i < n + k → buf[i]? = some x →
        buf'[i]? = corrected env g samprate epoch i x) ∧
      (∀ i : ℕ, ¬ (n ≤ i ∧ i < n + k) → buf'[i]? = buf[i]?) ∧
      (k = 0 ∨ n + k ≤ buf.length) := by
  intro k
  induction k with
  | zero =>
    intro n buf buf' h
    simp only [detide_loop, Except.ok.injEq] at h
    subst h
    refine ⟨rfl, ?_, ?_, Or.inl rfl⟩
    · intro i x h1 h2; omega
    · intro i _; rfl
  | succ k ih =>
    intro n buf buf' h
    unfold detide_loop at h
    cases hx : buf[n]? with
    | none => simp [hx] at h
    | some x =>
      simp only [hx] at h
      cases hy : corrected env g samprate epoch n x with
      | none => simp [hy] at h
      | some y =>
        simp only [hy] at h
        obtain ⟨hlen, hpt, hun, hb⟩ := ih (n + 1) (buf.set n y) buf' h
        have hn : n < buf.length := by
          rcases Nat.lt_or_ge n buf.length with h1 | h1
          · exact h1
          · rw [List.getElem?_eq_none h1] at hx; simp at hx
        refine ⟨by simpa using hlen, ?_, ?_, Or.inr ?_⟩
        · intro i x' h1 h2 hi
          by_cases hin : n = i
          · subst hin
            rw [hx] at hi
            simp only [Option.some.injEq] at hi
            subst hi
            rw [hun n (by omega), List.getElem?_set_self hn, hy]
          · refine hpt i x' (by omega) (by omega) ?_
            rw [List.getElem?_set_ne hin]
            exact hi
        · intro i hi
          rw [hun i (by omega)]
          exact List.getElem?_set_ne (by omega)
        · rcases hb with hb | hb
          · subst hb; omega
          · simp only [List.length_set] at hb; omega

/-- Inside the buffer and with defined conversions the loop ends normally. -/
theorem detide_loop_defined (env : Env) (g : Globals) (samprate epoch : Double) :
    ∀ (k n : Nat) (buf : List ℤ), n + k ≤ buf.length →
      (∀ (i : ℕ) (x : ℤ), n ≤ i → i < n + k → buf[i]? = some x →
        ∃ y, corrected env g samprate epoch i x = some y) →
      ∃ buf', detide_loop env g samprate epoch k n buf = .ok buf' := by
  intro k
  induction k with
  | zero => intro n buf _ _; exact ⟨buf, rfl⟩
  | succ k ih =>
    intro n buf hlen hr
    have hn : n < buf.length := by omega
    have hx : buf[n]? = some buf[n] := List.getElem?_eq_getElem hn
    obtain ⟨y, hy⟩ := hr n buf[n] (Nat.le_refl n) (by omega) hx
    unfold detide_loop
    simp only [hx, hy]
    apply ih
    · simp only [List.length_set]; omega
    · intro i x hi1 hi2 hi
      rw [List.getElem?_set_ne (by omega)] at hi
      exact hr i x (by omega) (by omega) hi

/-- With at least `n + remaining` entries in the buffer the loop never reads
or writes outside it. -/
theorem detide_loop_in_bounds (env : Env) (g : Globals) (samprate epoch : Double) :
    ∀ (k n : Nat) (buf : List ℤ), n + k ≤ buf.length →
      detide_loop env g samprate epoch k n buf ≠ .error .out_of_bounds := by
  intro k
  induction k with
  | zero => intro n buf _; simp [detide_loop]
  | succ k ih =>
    intro n buf hlen
    have hn : n < buf.length := by omega
    have hx : buf[n]? = some buf[n] := List.getElem?_eq_getElem hn
    unfold detide_loop
    simp only [hx]
    cases hy : corrected env g samprate epoch n buf[n] with
    | none => simp
    | some y =>
      simp only
      apply ih
      simp only [List.length_set]; omega

/-! ## detide_record: general facts -/

theorem set_orient_fields (g : Globals) (msr : MSRecord) :
    (set_orient g msr).starttime = msr.starttime ∧
    (set_orient g msr).samprate = msr.samprate ∧
    (set_orient g msr).samplecnt = msr.samplecnt ∧
    (set_orient g msr).numsamples = msr.numsamples ∧
    (set_orient g msr).sampletype = msr.sampletype ∧
    (set_orient g msr).datasamples = msr.datasamples := by
  unfold set_orient
  cases g.orient <;> simp

theorem pack_record_msr (env : Env) (msr : MSRecord) : (pack_record env msr).msr = msr := by
  unfold pack_record
  split <;> rfl

/-- Past the gate `detide_record` is the loop followed by the packing. -/
theorem detide_record_of_gate (env : Env) (g : Globals) (msr : MSRecord)
    (hg : passes_gate msr) :
    detide_record env g msr =
      match detide_loop env g msr.samprate (env.MS_HPTIME2EPOCH msr.starttime)
          msr.numsamples.toNat 0 msr.datasamples with
      | .error f => .error f
      | .ok buf => .ok (pack_record env { set_orient g msr with datasamples := buf }) := by
  obtain ⟨h1, h2, h3⟩ := hg
  obtain ⟨e1, e2, _, e4, _, e6⟩ := set_orient_fields g msr
  unfold detide_record
  rw [if_neg (by omega), if_neg (by simp [h2]), if_neg h3]
  simp only [e1, e2, e4, e6]

/-- A record that does not pass the gate takes one of the early returns. -/
theorem detide_record_of_not_gate (env : Env) (g : Globals) (msr : MSRecord)
    (hg : ¬ passes_gate msr) : detide_record env g msr = .ok ⟨msr, 0, 0, []⟩ := by
  unfold passes_gate at hg
  unfold detide_record
  by_cases h1 : msr.samplecnt < 1
  · rw [if_pos h1]
  · rw [if_neg h1]
    by_cases h2 : msr.sampletype ≠ 'i'
    · rw [if_pos h2]
    · rw [if_neg h2]
      have h3 : msr.samprate = .finite 0 := by
        by_contra h3
        exact hg ⟨by omega, not_not.mp h2, h3⟩
      rw [if_pos h3]

theorem detide_record_of_loop (env : Env) (g : Globals) (msr : MSRecord)
    (hg : passes_gate msr) (buf : List ℤ)
    (h : detide_loop env g msr.samprate (env.MS_HPTIME2EPOCH msr.starttime)
      msr.numsamples.toNat 0 msr.datasamples = .ok buf) :
    detide_record env g msr = .ok (pack_record env { set_orient g msr with datasamples := buf }) := by
  rw [detide_record_of_gate env g msr hg, h]

theorem detide_record_ok_inv (env : Env) (g : Globals) (msr : MSRecord)
    (hg : passes_gate msr) (d : DetideResult) (h : detide_record env g msr = .ok d) :
    ∃ buf, detide_loop env g msr.samprate (env.MS_HPTIME2EPOCH msr.starttime)
        msr.numsamples.toNat 0 msr.datasamples = .ok buf ∧
      d = pack_record env { set_orient g msr with datasamples := buf } := by
  rw [detide_record_of_gate env g msr hg] at h
  cases hl : detide_loop env g msr.samprate (env.MS_HPTIME2EPOCH msr.starttime)
      msr.numsamples.toNat 0 msr.datasamples with
  | error f => simp [hl] at h
  | ok buf =>
    simp only [hl, Except.ok.injEq] at h
    exact ⟨buf, rfl, h.symm⟩

/-- Inside the buffer and with defined conversions the loop of a record ends
normally. -/
theorem detide_record_loop_defined (env : Env) (g : Globals) (msr : MSRecord)
    (hb : in_bounds msr) (hc : conversions_defined env g msr) :
    ∃ buf, detide_loop env g msr.samprate (env.MS_HPTIME2EPOCH msr.starttime)
        msr.numsamples.toNat 0 msr.datasamples = .ok buf := by
  apply detide_loop_defined
  · unfold in_bounds at hb; omega
  · intro i x _ hi hx
    exact hc i x (by omega) hx

/-- What a loop that ended normally has stored, index by index. -/
theorem detide_record_loop_samples (env : Env) (g : Globals) (msr : MSRecord) (buf : List ℤ)
    (h : detide_loop env g msr.samprate (env.MS_HPTIME2EPOCH msr.starttime)
      msr.numsamples.toNat 0 msr.datasamples = .ok buf) :
    buf.length = msr.datasamples.length ∧
    (∀ (n : ℕ) (x : ℤ), (n : ℤ) < msr.numsamples → msr.datasamples[n]? = some x →
      buf[n]? = corrected env g msr.samprate (env.MS_HPTIME2EPOCH msr.starttime) n x) ∧
    (∀ n : ℕ, msr.numsamples ≤ (n : ℤ) → buf[n]? = msr.datasamples[n]?) := by
  obtain ⟨hlen, hpt, hun, _⟩ := detide_loop_ok env g _ _ _ _ _ _ h
  refine ⟨hlen, ?_, ?_⟩
  · intro n x hn hx
    exact hpt n x (Nat.zero_le n) (by omega) hx
  · intro n hn
    exact hun n (by omega)

/-- A record whose call ended normally past the gate has its `numsamples`
samples inside the buffer and every conversion defined. -/
theorem detide_record_ok_defined (env : Env) (g : Globals) (msr : MSRecord)
    (hg : passes_gate msr) (h : is_ok (detide_record env g msr) = true) :
    in_bounds msr ∧ conversions_defined env g msr := by
  cases hd : detide_record env g msr with
  | error f => rw [hd] at h; simp [is_ok] at h
  | ok d =>
    obtain ⟨buf, hl, _⟩ := detide_record_ok_inv env g msr hg d hd
    obtain ⟨hlen, hpt, _, hb⟩ := detide_loop_ok env g _ _ _ _ _ _ hl
    constructor
    · unfold in_bounds
      rcases hb with hb | hb <;> omega
    · intro n x hn hx
      have hlt : n < buf.length := by
        rw [hlen]
        rcases Nat.lt_or_ge n msr.datasamples.length with h1 | h1
        · exact h1
        · rw [List.getElem?_eq_none h1] at hx; simp at hx
      refine ⟨buf[n], ?_⟩
      rw [← hpt n x (Nat.zero_le n) (by omega) hx]
      exact List.getElem?_eq_getElem hlt

/-- Inside the buffer and with defined conversions a call of `detide_record`
has defined behaviour. -/
theorem detide_record_defined (env : Env) (g : Globals) (msr : MSRecord)
    (hb : in_bounds msr) (hc : conversions_defined env g msr) : defined env g msr := by
  by_cases hg : passes_gate msr
  · obtain ⟨buf, hl⟩ := detide_record_loop_defined env g msr hb hc
    exact ⟨_, detide_record_of_loop env g msr hg buf hl⟩
  · exact ⟨_, detide_record_of_not_gate env g msr hg⟩

/-- The calls on the records of a list of sources have defined behaviour when
each of them evaluates to a normal end. -/
theorem defined_of_all (env : Env) (g : Globals) (srcs : List Source)
    (h : (srcs.all fun s => s.records.all fun r => is_ok (detide_record env g r)) = true) :
    ∀ s ∈ srcs, ∀ r ∈ s.records, defined env g r := by
  intro s hs r hr
  simp only [List.all_eq_true] at h
  have h1 := h s hs r hr
  unfold defined
  cases hd : detide_record env g r with
  | error f => rw [hd] at h1; simp [is_ok] at h1
  | ok d => exact ⟨d, rfl⟩

/-! ## Claims about detide_record -/

/-- C1: for a record that passes the gate and whose sample buffer has the
length of the header count (`numsamples`, the length libmseed records for the
buffer, and the length of the list both equal `samplecnt`), `detide_record`
ends normally and the sample at every index `n` becomes
`(int) rint(old[n] - (alpha + beta * h_n))`, with `h_n` the height the
predictor gives for the epoch `MS_HPTIME2EPOCH(starttime) + n / samprate`.
Every operation is the rounded operation on doubles, and the epoch is one
division and one addition from the index `n` itself, not a running sum. The
conversions to `int` are assumed to be defined. -/
theorem detide_record_samples (env : Env) (g : Globals) (msr : MSRecord)
    (hg : passes_gate msr)
    (hnum : msr.numsamples = msr.samplecnt)
    (hlen : (msr.datasamples.length : ℤ) = msr.samplecnt)
    (hc : ∀ (n : ℕ) (x : ℤ), msr.datasamples[n]? = some x →
      ∃ y, double_to_int (rint (fsub (int_to_double x) (fadd g.alpha (fmul g.beta
        (env.libtidal_height g.num_tides g.tides
          (fadd (env.MS_HPTIME2EPOCH msr.starttime) (fdiv (int_to_double n) msr.samprate))
          g.latitude g.zone))))) = some y) :
    ∃ d, detide_record env g msr = .ok d ∧
      d.msr.datasamples.length = msr.datasamples.length ∧
      ∀ (n : ℕ) (x : ℤ), msr.datasamples[n]? = some x →
        d.msr.datasamples[n]? =
          double_to_int (rint (fsub (int_to_double x) (fadd g.alpha (fmul g.beta
            (env.libtidal_height g.num_tides g.tides
              (fadd (env.MS_HPTIME2EPOCH msr.starttime) (fdiv (int_to_double n) msr.samprate))
              g.latitude g.zone))))) := by
  have hb : in_bounds msr := by unfold in_bounds; omega
  have hc' : conversions_defined env g msr := fun n x _ hx => hc n x hx
  obtain ⟨buf, hl⟩ := detide_record_loop_defined env g msr hb hc'
  obtain ⟨h1, h2, _⟩ := detide_record_loop_samples env g msr buf hl
  refine ⟨_, detide_record_of_loop env g msr hg buf hl, ?_, ?_⟩
  · rw [pack_record_msr]; exact h1
  · intro n x hx
    rw [pack_record_msr]
    have hn : n < msr.datasamples.length := by
      rcases Nat.lt_or_ge n msr.datasamples.length with h | h
      · exact h
      · rw [List.getElem?_eq_none h] at hx; simp at hx
    exact h2 n x (by omega) hx

/-- C1, witness: the scenario of the specification, where the three samples
of 100 become 89 with offset 1, scale 2 and a predicted height of 5; and a
record at ten samples a second with a predictor that answers 1 only at the
epoch `3.0 / 10.0`, where the fourth sample alone is corrected although the
running sum `0.1 + 0.1 + 0.1` is a different double. -/
theorem detide_record_samples_witness :
    (∃ d, detide_record env_ex g_ex r_ex = .ok d ∧
      d.msr.datasamples.length = r_ex.datasamples.length ∧
      ∀ (n : ℕ) (x : ℤ), r_ex.datasamples[n]? = some x →
        d.msr.datasamples[n]? =
          double_to_int (rint (fsub (int_to_double x) (fadd g_ex.alpha (fmul g_ex.beta
            (env_ex.libtidal_height g_ex.num_tides g_ex.tides
              (fadd (env_ex.MS_HPTIME2EPOCH r_ex.starttime)
                (fdiv (int_to_double n) r_ex.samprate))
              g_ex.latitude g_ex.zone)))))) ∧
    (detide_record env_ex g_ex r_ex).toOption.map (fun d => d.msr.datasamples)
      = some [89, 89, 89] ∧
    (detide_record env_epoch g_unit r_tenth).toOption.map (fun d => d.msr.datasamples)
      = some [100, 100, 100, 99] ∧
    fadd (fadd (fdiv (.finite 1) (.finite 10)) (fdiv (.finite 1) (.finite 10)))
      (fdiv (.finite 1) (.finite 10)) ≠ fdiv (.finite 3) (.finite 10) :=
  ⟨detide_record_samples env_ex g_ex r_ex (by decide) (by decide) (by decide)
    (fun n x hx =>
      (detide_record_ok_defined env_ex g_ex r_ex (by decide) (by decide!)).2 n x
        (by
          have hn : n < r_ex.datasamples.length := by
            rcases Nat.lt_or_ge n r_ex.datasamples.length with h | h
            · exact h
            · rw [List.getElem?_eq_none h] at hx; simp at hx
          have h3 : r_ex.datasamples.length = 3 := rfl
          have h4 : r_ex.numsamples = 3 := rfl
          omega)
        hx),
   by decide!, by decide!, by decide!⟩

/-- C3: a record that fails the gate is skipped: `detide_record` returns 0,
the record (channel and samples included) is unchanged, `mst_packgroup` is not
called and nothing is written. -/
theorem detide_record_skip (env : Env) (g : Globals) (msr : MSRecord)
    (h : msr.samplecnt < 1 ∨ msr.sampletype ≠ 'i' ∨ msr.samprate = .finite 0) :
    detide_record env g msr = .ok ⟨msr, 0, 0, []⟩ := by
  unfold detide_record
  by_cases h1 : msr.samplecnt < 1
  · rw [if_pos h1]
  · rw [if_neg h1]
    by_cases h2 : msr.sampletype ≠ 'i'
    · rw [if_pos h2]
    · rw [if_neg h2]
      have h3 : msr.samprate = .finite 0 := by tauto
      rw [if_pos h3]

/-- C3, witness: a record with `samplecnt = 0` is skipped. -/
theorem detide_record_skip_witness :
    detide_record env_ex g_ex r_empty = .ok ⟨r_empty, 0, 0, []⟩ :=
  detide_record_skip env_ex g_ex r_empty (Or.inl (by decide))

/-- C4: for a record that passes the gate (with its buffer and conversions
inside what C defines, and a channel code of at least three characters)
`detide_record` ends normally and leaves the sample counts, the buffer length,
the start time, the sample rate, the sample type and every channel character
but the third as they were; the third character is `*orient` when `orient` is
set and is unchanged when it is not. -/
theorem detide_record_frame (env : Env) (g : Globals) (msr : MSRecord)
    (hg : passes_gate msr) (hb : in_bounds msr) (hc : conversions_defined env g msr)
    (hch : 3 ≤ msr.channel.length) :
    ∃ d, detide_record env g msr = .ok d ∧
      d.msr.samplecnt = msr.samplecnt ∧
      d.msr.numsamples = msr.numsamples ∧
      d.msr.datasamples.length = msr.datasamples.length ∧
      d.msr.starttime = msr.starttime ∧
      d.msr.samprate = msr.samprate ∧
      d.msr.sampletype = msr.sampletype ∧
      d.msr.channel.length = msr.channel.length ∧
      (∀ i : ℕ, i ≠ 2 → d.msr.channel[i]? = msr.channel[i]?) ∧
      (∀ s, g.orient = some s → d.msr.channel[2]? = some (deref s)) ∧
      (g.orient = none → d.msr.channel = msr.channel) := by
  obtain ⟨buf, hl⟩ := detide_record_loop_defined env g msr hb hc
  obtain ⟨h1, _, _⟩ := detide_record_loop_samples env g msr buf hl
  obtain ⟨e1, e2, e3, e4, e5, _⟩ := set_orient_fields g msr
  refine ⟨_, detide_record_of_loop env g msr hg buf hl, ?_⟩
  rw [pack_record_msr]
  refine ⟨e3, e4, h1, e1, e2, e5, ?_, ?_, ?_, ?_⟩
  · unfold set_orient
    cases g.orient <;> simp
  · intro i hi
    unfold set_orient
    cases g.orient with
    | none => rfl
    | some s => exact List.getElem?_set_ne (Ne.symm hi)
  · intro s hs
    unfold set_orient
    rw [hs]
    exact List.getElem?_set_self (by omega)
  · intro hn
    unfold set_orient
    rw [hn]

/-- C4, witness: the record of the scenario keeps its counts and its first
two channel characters, and its third character becomes `T`. -/
theorem detide_record_frame_witness :
    ∃ d, detide_record env_ex g_ex r_ex = .ok d ∧
      d.msr.samplecnt = 3 ∧ d.msr.datasamples.length = 3 ∧
      d.msr.channel[0]? = some 'B' ∧ d.msr.channel[1]? = some 'T' ∧
      d.msr.channel[2]? = some 'T' := by
  obtain ⟨d, hd, h1, _, h3, _, _, _, _, h8, h9, _⟩ :=
    detide_record_frame env_ex g_ex r_ex (by decide) (by decide)
      (detide_record_ok_defined env_ex g_ex r_ex (by decide) (by decide!)).2
      (by decide)
  exact ⟨d, hd, h1, h3, h8 0 (by decide), h8 1 (by decide), h9 "T" rfl⟩

/-- With offset 0, scale 0 and a finite height the value stored for an `int`
sample is the sample. -/
theorem corrected_zero (env : Env) (g : Globals) (samprate epoch : Double) (n : Nat) (x : ℤ)
    (ha : g.alpha = .finite 0) (hbeta : g.beta = .finite 0)
    (hfin : ∃ h : ℚ, env.libtidal_height g.num_tides g.tides
      (fadd epoch (fdiv (int_to_double n) samprate)) g.latitude g.zone = .finite h)
    (h1 : INT_MIN ≤ x) (h2 : x ≤ INT_MAX) :
    corrected env g samprate epoch n x = some x := by
  obtain ⟨h, hh⟩ := hfin
  have hx : |x| < 2 ^ 53 := by
    unfold INT_MIN at h1
    unfold INT_MAX at h2
    rw [abs_lt]
    constructor <;> omega
  have e1 : fmul (.finite 0) (.finite h) = .finite 0 := by
    simp only [fmul, zero_mul, round_to_double_zero]
  have e2 : fadd (.finite 0) (.finite 0) = .finite 0 := by
    simp only [fadd, add_zero, round_to_double_zero]
  have e3 : fsub (int_to_double x) (.finite 0) = .finite (x : ℚ) := by
    simp only [fsub, int_to_double, sub_zero, round_to_double_intCast x hx]
  have e4 : rint (.finite (x : ℚ)) = .finite (x : ℚ) := by
    simp only [rint, rint_intCast]
  unfold corrected detided
  simp only [hh, ha, hbeta, e1, e2, e3, e4]
  exact double_to_int_intCast h1 h2

/-- C5 as the code has it: with `alpha = 0` and `beta = 0` every sample of a
record that passes the gate keeps its value, whatever the constituents and
whatever finite heights the predictor returns (the buffer holds `numsamples`
samples of type `int`). -/
theorem detide_record_identity (env : Env) (g : Globals) (msr : MSRecord)
    (hg : passes_gate msr) (hb : in_bounds msr)
    (hint : ∀ x ∈ msr.datasamples, INT_MIN ≤ x ∧ x ≤ INT_MAX)
    (ha : g.alpha = .finite 0) (hbeta : g.beta = .finite 0)
    (hfin : ∀ n : ℕ, (n : ℤ) < msr.numsamples →
      ∃ h : ℚ, env.libtidal_height g.num_tides g.tides
        (fadd (env.MS_HPTIME2EPOCH msr.starttime) (fdiv (int_to_double n) msr.samprate))
        g.latitude g.zone = .finite h) :
    ∃ d, detide_record env g msr = .ok d ∧ d.msr.datasamples = msr.datasamples := by
  have hz : ∀ (n : ℕ) (x : ℤ), (n : ℤ) < msr.numsamples → msr.datasamples[n]? = some x →
      corrected env g msr.samprate (env.MS_HPTIME2EPOCH msr.starttime) n x = some x := by
    intro n x hn hx
    obtain ⟨h1, h2⟩ := hint x (List.getElem?_mem hx)
    exact corrected_zero env g _ _ n x ha hbeta (hfin n hn) h1 h2
  have hc : conversions_defined env g msr := fun n x hn hx => ⟨x, hz n x hn hx⟩
  obtain ⟨buf, hl⟩ := detide_record_loop_defined env g msr hb hc
  obtain ⟨_, h2, h3⟩ := detide_record_loop_samples env g msr buf hl
  refine ⟨_, detide_record_of_loop env g msr hg buf hl, ?_⟩
  rw [pack_record_msr]
  apply List.ext_getElem?
  intro n
  show buf[n]? = msr.datasamples[n]?
  rcases lt_or_le (n : ℤ) msr.numsamples with hn | hn
  · cases hx : msr.datasamples[n]? with
    | none =>
      unfold in_bounds at hb
      have : msr.datasamples.length ≤ n := by
        rcases Nat.lt_or_ge n msr.datasamples.length with h | h
        · rw [List.getElem?_eq_getElem h] at hx; simp at hx
        · exact h
      omega
    | some x => rw [h2 n x hn hx, hz n x hn hx]
  · exact h3 n hn

/-- C5, witness: the record of the scenario under `alpha = 0`, `beta = 0` and
the finite height 5. -/
theorem detide_record_identity_witness :
    ∃ d, detide_record env_ex g_zero r_ex = .ok d ∧ d.msr.datasamples = [100, 100, 100] :=
  detide_record_identity env_ex g_zero r_ex (by decide) (by decide)
    (by
      intro x hx
      have hx100 : x = 100 := by simpa [r_ex] using hx
      subst hx100
      decide)
    rfl rfl (fun _ _ => ⟨5, rfl⟩)

/-- C5, counterexample: with `alpha = 0`, `beta = 0` and a predictor that
returns an infinite height, `beta * height` is a NaN, so is the value handed
to `rint` for the sample 100, its conversion to `int` is undefined, and the
call does not end with the samples kept. -/
theorem detide_record_identity_counterexample :
    g_zero.alpha = .finite 0 ∧ g_zero.beta = .finite 0 ∧
    detided env_inf g_zero r_ex.samprate (env_inf.MS_HPTIME2EPOCH r_ex.starttime) 0 100
      = .nan ∧
    detide_record env_inf g_zero r_ex = .error .int_conversion := by
  refine ⟨rfl, rfl, ?_, ?_⟩ <;> decide!

/-- C10: the gate tests the header count `samplecnt` and the loop runs over
the decoded count `numsamples`. For a record that passes the gate and whose
buffer holds at least `numsamples` entries: no access of the loop is outside
the buffer; the call ends normally whenever the conversions are in range; a
call that ends normally has rewritten the indices below `numsamples` and left
every index from `numsamples` on unchanged; the samples stored do not depend
on `samplecnt`; and with `numsamples = 0` no sample is corrected. -/
theorem detide_record_numsamples (env : Env) (g : Globals) (msr : MSRecord)
    (hg : passes_gate msr) (hb : in_bounds msr) :
    detide_record env g msr ≠ .error .out_of_bounds ∧
    (conversions_defined env g msr → ∃ d, detide_record env g msr = .ok d) ∧
    (∀ d, detide_record env g msr = .ok d →
      d.msr.datasamples.length = msr.datasamples.length ∧
      (∀ (n : ℕ) (x : ℤ), (n : ℤ) < msr.numsamples → msr.datasamples[n]? = some x →
        d.msr.datasamples[n]? =
          corrected env g msr.samprate (env.MS_HPTIME2EPOCH msr.starttime) n x) ∧
      (∀ n : ℕ, msr.numsamples ≤ (n : ℤ) → d.msr.datasamples[n]? = msr.datasamples[n]?)) ∧
    (∀ c : ℤ, 1 ≤ c →
      Except.map (fun d => d.msr.datasamples) (detide_record env g { msr with samplecnt := c })
        = Except.map (fun d => d.msr.datasamples) (detide_record env g msr)) ∧
    (msr.numsamples = 0 →
      ∃ d, detide_record env g msr = .ok d ∧ d.msr.datasamples = msr.datasamples) := by
  refine ⟨?_, ?_, ?_, ?_, ?_⟩
  · rw [detide_record_of_gate env g msr hg]
    have hnb := detide_loop_in_bounds env g msr.samprate (env.MS_HPTIME2EPOCH msr.starttime)
      msr.numsamples.toNat 0 msr.datasamples (by unfold in_bounds at hb; omega)
    cases hl : detide_loop env g msr.samprate (env.MS_HPTIME2EPOCH msr.starttime)
        msr.numsamples.toNat 0 msr.datasamples with
    | error f =>
      rw [hl] at hnb
      simp only [ne_eq, Except.error.injEq] at hnb ⊢
      exact hnb
    | ok buf => simp
  · intro hc
    obtain ⟨buf, hl⟩ := detide_record_loop_defined env g msr hb hc
    exact ⟨_, detide_record_of_loop env g msr hg buf hl⟩
  · intro d hd
    obtain ⟨buf, hl, rfl⟩ := detide_record_ok_inv env g msr hg d hd
    rw [pack_record_msr]
    exact detide_record_loop_samples env g msr buf hl
  · intro c hc1
    have hg' : passes_gate { msr with samplecnt := c } := ⟨hc1, hg.2.1, hg.2.2⟩
    rw [detide_record_of_gate env g msr hg, detide_record_of_gate env g _ hg']
    show Except.map _ (match detide_loop env g msr.samprate (env.MS_HPTIME2EPOCH msr.starttime)
        msr.numsamples.toNat 0 msr.datasamples with
      | .error f => .error f
      | .ok buf => .ok (pack_record env { set_orient g { msr with samplecnt := c } with
          datasamples := buf })) = _
    cases detide_loop env g msr.samprate (env.MS_HPTIME2EPOCH msr.starttime)
        msr.numsamples.toNat 0 msr.datasamples with
    | error f => rfl
    | ok buf => simp only [Except.map, pack_record_msr]
  · intro h0
    have hl : detide_loop env g msr.samprate (env.MS_HPTIME2EPOCH msr.starttime)
        msr.numsamples.toNat 0 msr.datasamples = .ok msr.datasamples := by
      rw [h0]; rfl
    refine ⟨_, detide_record_of_loop env g msr hg _ hl, ?_⟩
    rw [pack_record_msr]

/-- C10, witness: a record with `samplecnt = 1` and `numsamples = 0` passes
the gate and keeps its buffer. -/
theorem detide_record_numsamples_witness :
    passes_gate r_undecoded ∧ in_bounds r_undecoded ∧
    ∃ d, detide_record env_ex g_ex r_undecoded = .ok d ∧ d.msr.datasamples = [7] :=
  ⟨by decide, by decide,
    (detide_record_numsamples env_ex g_ex r_undecoded (by decide) (by decide)).2.2.2.2 rfl⟩

/-- C2 as the code has it: the value stored for a sample is an integer nearest
to the double `v = sample - (alpha + beta * height)` that is handed to `rint`,
and a tie `v = k + 1/2` is stored as the even one of `k` and `k + 1` (round
half to even), for `k` of either sign. -/
theorem detide_record_rounding (env : Env) (g : Globals) (msr : MSRecord)
    (hg : passes_gate msr) (hb : in_bounds msr) (hc : conversions_defined env g msr) :
    ∃ d, detide_record env g msr = .ok d ∧
      ∀ (n : ℕ) (x : ℤ), (n : ℤ) < msr.numsamples → msr.datasamples[n]? = some x →
        ∃ (v : ℚ) (s : ℤ),
          detided env g msr.samprate (env.MS_HPTIME2EPOCH msr.starttime) n x = .finite v ∧
          d.msr.datasamples[n]? = some s ∧
          (∀ m : ℤ, |(s : ℚ) - v| ≤ |(m : ℚ) - v|) ∧
          (∀ k : ℤ, v = (k : ℚ) + 1 / 2 → s = if k % 2 = 0 then k else k + 1) := by
  obtain ⟨buf, hl⟩ := detide_record_loop_defined env g msr hb hc
  obtain ⟨_, h2, _⟩ := detide_record_loop_samples env g msr buf hl
  refine ⟨_, detide_record_of_loop env g msr hg buf hl, ?_⟩
  intro n x hn hx
  rw [pack_record_msr]
  obtain ⟨s, hs⟩ := hc n x hn hx
  obtain ⟨v, hv, rfl⟩ := double_to_int_rint hs
  refine ⟨v, rint_value v, hv, ?_, ?_, ?_⟩
  · show buf[n]? = some (rint_value v)
    rw [h2 n x hn hx, hs]
  · intro m
    exact rint_nearest v m
  · intro k hk
    rw [hk]
    exact rint_tie k

/-- C2, witness: a record whose three samples give the values `100 + 1/2`,
`101 + 1/4` and `101 + 1/2` to `rint`; they are stored as 100 (the tie to the
even integer below), 101 (the nearest integer) and 102 (the tie to the even
integer above). -/
theorem detide_record_rounding_witness :
    detided env_quarter g_half_one r_ties.samprate
      (env_quarter.MS_HPTIME2EPOCH r_ties.starttime) 0 101 = .finite (201 / 2) ∧
    detided env_quarter g_half_one r_ties.samprate
      (env_quarter.MS_HPTIME2EPOCH r_ties.starttime) 1 102 = .finite (405 / 4) ∧
    detided env_quarter g_half_one r_ties.samprate
      (env_quarter.MS_HPTIME2EPOCH r_ties.starttime) 2 102 = .finite (203 / 2) ∧
    (detide_record env_quarter g_half_one r_ties).toOption.map (fun d => d.msr.datasamples)
      = some [100, 101, 102] ∧
    ∃ d, detide_record env_quarter g_half_one r_ties = .ok d ∧
      ∀ (n : ℕ) (x : ℤ), (n : ℤ) < r_ties.numsamples → r_ties.datasamples[n]? = some x →
        ∃ (v : ℚ) (s : ℤ),
          detided env_quarter g_half_one r_ties.samprate
            (env_quarter.MS_HPTIME2EPOCH r_ties.starttime) n x = .finite v ∧
          d.msr.datasamples[n]? = some s ∧
          (∀ m : ℤ, |(s : ℚ) - v| ≤ |(m : ℚ) - v|) ∧
          (∀ k : ℤ, v = (k : ℚ) + 1 / 2 → s = if k % 2 = 0 then k else k + 1) :=
  ⟨by decide!, by decide!, by decide!, by decide!,
    detide_record_rounding env_quarter g_half_one r_ties (by decide) (by decide)
      (detide_record_ok_defined env_quarter g_half_one r_ties (by decide) (by decide!)).2⟩

/-- C2, counterexample: the sample 101 with offset 1/2 and scale 0 gives
`v = 100 + 1/2`, a tie with `k = 100 ≥ 0`; round half away from zero would
store 101, and `detide_record` stores 100. -/
theorem detide_record_rounding_counterexample :
    detided env_ex g_half r_101.samprate (env_ex.MS_HPTIME2EPOCH r_101.starttime) 0 101
      = .finite ((100 : ℚ) + 1 / 2) ∧
    (detide_record env_ex g_half r_101).toOption.map (fun d => d.msr.datasamples)
      = some [100] ∧
    (100 : ℤ) ≠ 100 + 1 := by
  refine ⟨?_, ?_, ?_⟩ <;> decide!

/-- C6, the code at the failing input: the packer reports an error
(`precords = -1`, no sample packed) for the scenario record, and
`detide_record` returns `psamples = 0`, which is not negative. -/
theorem detide_record_pack_error :
    (env_packfail.mst_packgroup
      ⟨['B', 'T', 'T'], 0, .finite 1, 3, 3, 'i', [89, 89, 89]⟩).precords = -1 ∧
    detide_record env_packfail g_ex r_ex
      = .ok ⟨⟨['B', 'T', 'T'], 0, .finite 1, 3, 3, 'i', [89, 89, 89]⟩, 0, 1, []⟩ := by
  refine ⟨rfl, ?_⟩
  decide!

/-! ## The option loop -/

theorem getopt_loop_append (env : Env) :
    ∀ (a b : List Opt) (g : Globals),
      getopt_loop env (a ++ b) g =
        match getopt_loop env a g with
        | .error status => .error status
        | .ok g1 => getopt_loop env b g1 := by
  intro a
  induction a with
  | nil => intro b g; rfl
  | cons o os ih =>
    intro b g
    simp only [List.cons_append, getopt_loop]
    cases getopt_case env g o with
    | error status => rfl
    | ok g1 => exact ih b g1

/-- The state of `num_tides` and `tides` after the option loop, from any
state in which `num_tides` is within the array. -/
theorem getopt_loop_tides (env : Env) :
    ∀ (opts : List Opt) (g : Globals), Opt.help ∉ opts → Opt.unknown ∉ opts →
      g.num_tides ≤ env.LIBTIDAL_MAX_CONSTITUENTS →
      g.tides.length = env.LIBTIDAL_MAX_CONSTITUENTS →
      ∃ g1, getopt_loop env opts g = .ok g1 ∧
        g1.num_tides = min (g.num_tides + (tide_args opts).length) env.LIBTIDAL_MAX_CONSTITUENTS ∧
        g1.tides.length = env.LIBTIDAL_MAX_CONSTITUENTS ∧
        ∀ i : ℕ, g1.tides[i]? =
          if g.num_tides ≤ i ∧
              i < min (g.num_tides + (tide_args opts).length) env.LIBTIDAL_MAX_CONSTITUENTS then
            ((tide_args opts)[i - g.num_tides]?).map (fun t => tide_entry env t.1 t.2.1 t.2.2)
          else g.tides[i]? := by
  intro opts
  induction opts with
  | nil =>
    intro g _ _ hn _
    refine ⟨g, rfl, ?_, ‹_›, ?_⟩
    · simp only [tide_args, List.length_nil, Nat.add_zero]; omega
    · intro i
      have e : ¬ (g.num_tides ≤ i ∧
          i < min (g.num_tides + (tide_args []).length) env.LIBTIDAL_MAX_CONSTITUENTS) := by
        simp only [tide_args, List.length_nil, Nat.add_zero]; omega
      rw [if_neg e]
  | cons o os ih =>
    intro g hh hu hn hl
    have hh' : Opt.help ∉ os := fun h => hh (List.mem_cons_of_mem _ h)
    have hu' : Opt.unknown ∉ os := fun h => hu (List.mem_cons_of_mem _ h)
    have other : ∀ g1 : Globals, getopt_case env g o = .ok g1 →
        g1.num_tides = g.num_tides → g1.tides = g.tides → tide_args (o :: os) = tide_args os →
        ∃ g2, getopt_loop env (o :: os) g = .ok g2 ∧
          g2.num_tides = min (g.num_tides + (tide_args (o :: os)).length)
            env.LIBTIDAL_MAX_CONSTITUENTS ∧
          g2.tides.length = env.LIBTIDAL_MAX_CONSTITUENTS ∧
          ∀ i : ℕ, g2.tides[i]? =
            if g.num_tides ≤ i ∧ i < min (g.num_tides + (tide_args (o :: os)).length)
                env.LIBTIDAL_MAX_CONSTITUENTS then
              ((tide_args (o :: os))[i - g.num_tides]?).map
                (fun t => tide_entry env t.1 t.2.1 t.2.2)
            else g.tides[i]? := by
      intro g1 hc e1 e2 e3
      obtain ⟨g2, h1, h2, h3, h4⟩ := ih g1 hh' hu' (by rw [e1]; exact hn) (by rw [e2]; exact hl)
      refine ⟨g2, ?_, ?_, h3, ?_⟩
      · simp only [getopt_loop, hc, h1]
      · rw [e3, h2, e1]
      · intro i
        rw [e3, h4 i, e1, e2]
    cases o with
    | unknown => exact absurd (List.mem_cons_self _ _) hu
    | help => exact absurd (List.mem_cons_self _ _) hh
    | verbose => exact other _ rfl rfl rfl rfl
    | alpha v => exact other _ rfl rfl rfl rfl
    | beta v => exact other _ rfl rfl rfl rfl
    | latitude v => exact other _ rfl rfl rfl rfl
    | zone v => exact other _ rfl rfl rfl rfl
    | orient v => exact other _ rfl rfl rfl rfl
    | tide label amplitude lag =>
      by_cases hfull : g.num_tides < env.LIBTIDAL_MAX_CONSTITUENTS
      · have hc : getopt_case env g (.tide label amplitude lag) = .ok { g with
            tides := g.tides.set g.num_tides (tide_entry env label amplitude lag)
            num_tides := g.num_tides + 1 } := by
          simp only [getopt_case, if_pos hfull]
        obtain ⟨g2, h1, h2, h3, h4⟩ := ih { g with
            tides := g.tides.set g.num_tides (tide_entry env label amplitude lag)
            num_tides := g.num_tides + 1 } hh' hu'
          (show g.num_tides + 1 ≤ env.LIBTIDAL_MAX_CONSTITUENTS by omega)
          (show (g.tides.set g.num_tides (tide_entry env label amplitude lag)).length
            = env.LIBTIDAL_MAX_CONSTITUENTS by rw [List.length_set]; exact hl)
        refine ⟨g2, ?_, ?_, h3, ?_⟩
        · simp only [getopt_loop, hc, h1]
        · rw [h2]
          simp only [tide_args, List.length_cons]
          omega
        · intro i
          rw [h4 i]
          simp only [tide_args, List.length_cons]
          by_cases hi : g.num_tides + 1 ≤ i
          · have e1 : (g.num_tides + 1 ≤ i ∧ i < min (g.num_tides + 1 + (tide_args os).length)
                env.LIBTIDAL_MAX_CONSTITUENTS) ↔ (g.num_tides ≤ i ∧
                i < min (g.num_tides + ((tide_args os).length + 1))
                  env.LIBTIDAL_MAX_CONSTITUENTS) := by omega
            have e2 : i - g.num_tides = (i - (g.num_tides + 1)) + 1 := by omega
            simp only [e1, e2, List.getElem?_cons_succ]
            split
            · rfl
            · exact List.getElem?_set_ne (by omega)
          · have e1 : ¬ (g.num_tides + 1 ≤ i ∧ i < min (g.num_tides + 1 + (tide_args os).length)
                env.LIBTIDAL_MAX_CONSTITUENTS) := by omega
            rw [if_neg e1]
            by_cases hin : i = g.num_tides
            · subst hin
              have e3 : g.num_tides ≤ g.num_tides ∧
                  g.num_tides < min (g.num_tides + ((tide_args os).length + 1))
                    env.LIBTIDAL_MAX_CONSTITUENTS := by omega
              rw [if_pos e3, List.getElem?_set_self (by omega)]
              simp
            · have e3 : ¬ (g.num_tides ≤ i ∧ i < min (g.num_tides + ((tide_args os).length + 1))
                  env.LIBTIDAL_MAX_CONSTITUENTS) := by omega
              rw [if_neg e3]
              exact List.getElem?_set_ne (by omega)
      · have hc : getopt_case env g (.tide label amplitude lag) = .ok g := by
          simp only [getopt_case, if_neg hfull]
        obtain ⟨g2, h1, h2, h3, h4⟩ := ih g hh' hu' hn hl
        refine ⟨g2, ?_, ?_, h3, ?_⟩
        · simp only [getopt_loop, hc, h1]
        · rw [h2]
          simp only [tide_args, List.length_cons]
          omega
        · intro i
          rw [h4 i]
          simp only [tide_args, List.length_cons]
          have e1 : ¬ (g.num_tides ≤ i ∧ i < min (g.num_tides + (tide_args os).length)
              env.LIBTIDAL_MAX_CONSTITUENTS) := by omega
          have e2 : ¬ (g.num_tides ≤ i ∧ i < min (g.num_tides + ((tide_args os).length + 1))
              env.LIBTIDAL_MAX_CONSTITUENTS) := by omega
          rw [if_neg e1, if_neg e2]

/-- C9: after the option loop over options that hold `k` options `-T` (and no
`-h` or unknown option, which leave the program), `num_tides` is
`min k LIBTIDAL_MAX_CONSTITUENTS`, within the array; entry `i` of `tides`, for
`i` below the maximum, is option `i` with its amplitude and its lag divided by
`360.0`; the entries from `num_tides` on are untouched; and a further `-T` option
once the array is full changes nothing and is no error. -/
theorem getopt_loop_num_tides (env : Env) (opts : List Opt)
    (hh : Opt.help ∉ opts) (hu : Opt.unknown ∉ opts) :
    ∃ g, getopt_loop env opts (init_globals env) = .ok g ∧
      g.num_tides = min (tide_args opts).length env.LIBTIDAL_MAX_CONSTITUENTS ∧
      g.num_tides ≤ env.LIBTIDAL_MAX_CONSTITUENTS ∧
      g.tides.length = env.LIBTIDAL_MAX_CONSTITUENTS ∧
      (∀ (i : ℕ) (label : String) (amplitude lag : Double), i < env.LIBTIDAL_MAX_CONSTITUENTS →
        (tide_args opts)[i]? = some (label, amplitude, lag) →
        g.tides[i]? = some
          ⟨String.mk (label.data.take (env.LIBTIDAL_CHARLEN - 1)), amplitude,
            fdiv lag (.finite 360)⟩) ∧
      (∀ i : ℕ, g.num_tides ≤ i → g.tides[i]? = (init_globals env).tides[i]?) ∧
      (env.LIBTIDAL_MAX_CONSTITUENTS ≤ (tide_args opts).length →
        ∀ (label : String) (amplitude lag : Double),
          getopt_loop env (opts ++ [.tide label amplitude lag]) (init_globals env) = .ok g) := by
  obtain ⟨g, h1, h2, h3, h4⟩ := getopt_loop_tides env opts (init_globals env) hh hu
    (Nat.zero_le _) (by simp [init_globals])
  have h0 : (init_globals env).num_tides = 0 := rfl
  rw [h0, Nat.zero_add] at h2
  simp only [h0, Nat.zero_add, Nat.zero_le, true_and, Nat.sub_zero] at h4
  refine ⟨g, h1, h2, by omega, h3, ?_, ?_, ?_⟩
  · intro i label amplitude lag hi ht
    have hlt : i < (tide_args opts).length := by
      rcases Nat.lt_or_ge i (tide_args opts).length with h | h
      · exact h
      · rw [List.getElem?_eq_none h] at ht; simp at ht
    rw [h4 i, if_pos (by omega), ht]
    rfl
  · intro i hi
    rw [h4 i, if_neg (by omega)]
  · intro hfull label amplitude lag
    rw [getopt_loop_append, h1]
    have hn : ¬ g.num_tides < env.LIBTIDAL_MAX_CONSTITUENTS := by omega
    simp only [getopt_loop, getopt_case, if_neg hn]

/-- C9, witness: three `-T` options for an array of two constituents; the
first two are stored, with lags 180/360 and 90/360, and the third is dropped. -/
theorem getopt_loop_num_tides_witness :
    ∃ g, getopt_loop env_ex opts_ex (init_globals env_ex) = .ok g ∧
      g.num_tides = 2 ∧
      g.tides[0]? = some ⟨"M2", .finite 1, .finite (1 / 2)⟩ ∧
      g.tides[1]? = some ⟨"S2", .finite 2, .finite (1 / 4)⟩ ∧
      g.tides.length = 2 := by
  obtain ⟨g, h1, h2, _, h4, h5, _, _⟩ :=
    getopt_loop_num_tides env_ex opts_ex (by simp [opts_ex]) (by simp [opts_ex])
  refine ⟨g, h1, ?_, ?_, ?_, h4⟩
  · rw [h2]; rfl
  · rw [h5 0 "M2" (.finite 1) (.finite 180) (by decide) rfl]
    decide!
  · rw [h5 1 "S2" (.finite 2) (.finite 90) (by decide) rfl]
    decide!

/-! ## The driver loop -/

theorem processed_cons_neg (env : Env) (g : Globals) (r : MSRecord) (rs : List MSRecord)
    (h : record_ret env g r < 0) : processed env g (r :: rs) = [r] := by
  have hp : decide (0 ≤ record_ret env g r) = false := by
    simp only [decide_eq_false_iff_not]; omega
  simp only [processed, List.takeWhile_cons, List.dropWhile_cons, hp]
  rfl

theorem processed_cons_nonneg (env : Env) (g : Globals) (r : MSRecord) (rs : List MSRecord)
    (h : 0 ≤ record_ret env g r) : processed env g (r :: rs) = r :: processed env g rs := by
  have hp : decide (0 ≤ record_ret env g r) = true := by
    simp only [decide_eq_true_eq]; exact h
  simp only [processed, List.takeWhile_cons, List.dropWhile_cons, hp]
  rfl

/-- Without a negative return value every record of the source is processed. -/
theorem processed_all (env : Env) (g : Globals) :
    ∀ records : List MSRecord, (∀ r ∈ records, 0 ≤ record_ret env g r) →
      processed env g records = records := by
  intro records
  induction records with
  | nil => intro _; rfl
  | cons r rs ih =>
    intro h
    rw [processed_cons_nonneg env g r rs (h r (List.mem_cons_self _ _)),
      ih (fun x hx => h x (List.mem_cons_of_mem _ hx))]

/-- The first negative return value ends the source, after that record. -/
theorem processed_stop (env : Env) (g : Globals) :
    ∀ (pre : List MSRecord) (r : MSRecord) (post : List MSRecord),
      (∀ x ∈ pre, 0 ≤ record_ret env g x) → record_ret env g r < 0 →
      processed env g (pre ++ r :: post) = pre ++ [r] := by
  intro pre
  induction pre with
  | nil => intro r post _ hr; exact processed_cons_neg env g r post hr
  | cons p ps ih =>
    intro r post h hr
    rw [List.cons_append, processed_cons_nonneg env g p _ (h p (List.mem_cons_self _ _)),
      ih r post (fun x hx => h x (List.mem_cons_of_mem _ hx)) hr]
    rfl

theorem read_loop_spec (env : Env) (g : Globals) (last : ReadEnd) :
    ∀ (records : List MSRecord) (out : List Bytes), (∀ r ∈ records, defined env g r) →
      read_loop env g last records out =
        .ok (out ++ ((processed env g records).map (record_output env g)).flatten,
          if records.any (fun r => decide (record_ret env g r < 0)) then RC.MS_NOERROR
          else last.rc) := by
  intro records
  induction records with
  | nil =>
    intro out _
    simp [read_loop, processed]
  | cons r rs ih =>
    intro out hdef
    obtain ⟨d, hd⟩ := hdef r (List.mem_cons_self _ _)
    have hret : record_ret env g r = d.ret := by simp only [record_ret, hd]
    have hout : record_output env g r = d.output := by simp only [record_output, hd]
    simp only [read_loop, hd]
    by_cases hneg : d.ret < 0
    · rw [if_pos hneg, processed_cons_neg env g r rs (by rw [hret]; exact hneg)]
      simp [hout, hret, hneg]
    · rw [if_neg hneg, processed_cons_nonneg env g r rs (by rw [hret]; omega),
        ih (out ++ d.output) (fun x hx => hdef x (List.mem_cons_of_mem _ hx))]
      simp [hout, hret, hneg]

theorem process_source_spec (env : Env) (g : Globals) (s : Source) (st : Streams)
    (hdef : ∀ r ∈ s.records, defined env g r) :
    process_source env g s st =
      .ok ⟨st.output ++ source_output env g s, st.errors ++ (source_error env g s).toList⟩ := by
  unfold process_source source_output source_error
  rw [read_loop_spec env g s.last s.records st.output hdef]
  by_cases hany : s.records.any (fun r => decide (record_ret env g r < 0)) = true
  · simp [hany]
  · simp only [hany]
    cases s.last with
    | MS_ENDOFFILE => simp [ReadEnd.rc]
    | error code => simp [ReadEnd.rc]

theorem driver_loop_spec (env : Env) (g : Globals) :
    ∀ (srcs : List Source) (st : Streams), (∀ s ∈ srcs, ∀ r ∈ s.records, defined env g r) →
      driver_loop env g srcs st =
        .ok ⟨st.output ++ (srcs.map (source_output env g)).flatten,
          st.errors ++ srcs.filterMap (source_error env g)⟩ := by
  intro srcs
  induction srcs with
  | nil => intro st _; simp [driver_loop]
  | cons s rest ih =>
    intro st hdef
    simp only [driver_loop, process_source_spec env g s st (hdef s (List.mem_cons_self _ _))]
    rw [ih _ (fun x hx => hdef x (List.mem_cons_of_mem _ hx))]
    cases hs : source_error env g s <;> simp [List.filterMap_cons, hs]

theorem sources_eq (files : List Source) (stdin : Source) :
    sources files stdin = if files = [] then [stdin] else files := by
  cases files <;> simp [sources]

/-! ## Claims about main -/

/-- C7 as the code has it: a run of `main` that reaches the driver loop (no
`-h`, no unknown option) returns the status 0, also when a source ends with a
decode error; the decode error of a source that was read to its end is
recorded in the error log and nowhere else. Every call of `detide_record` is
assumed to have defined behaviour. -/
theorem main_status (env : Env) (opts : List Opt) (files : List Source) (stdin : Source)
    (g : Globals) (hopt : getopt_loop env opts (init_globals env) = .ok g)
    (hdef : ∀ s ∈ (if files = [] then [stdin] else files), ∀ r ∈ s.records, defined env g r) :
    ∃ res, main env opts files stdin = .ok res ∧ res.status = 0 ∧
      ∀ s ∈ (if files = [] then [stdin] else files), ∀ code : ℤ, s.last = .error code →
        (∀ r ∈ s.records, 0 ≤ record_ret env g r) → RC.error code ∈ res.errors := by
  rw [← sources_eq] at hdef ⊢
  have hd := driver_loop_spec env g (sources files stdin) ⟨[], []⟩ hdef
  have hmain : main env opts files stdin =
      .ok ⟨0, [] ++ ((sources files stdin).map (source_output env g)).flatten,
        [] ++ (sources files stdin).filterMap (source_error env g)⟩ := by
    unfold main driver
    rw [hopt]
    simp only [hd]
  refine ⟨_, hmain, rfl, ?_⟩
  · intro s hs code hlast hall
    simp only [List.nil_append, List.mem_filterMap]
    refine ⟨s, hs, ?_⟩
    have hany : ¬ (s.records.any (fun r => decide (record_ret env g r < 0)) = true) := by
      simp only [List.any_eq_true, decide_eq_true_eq, not_exists, not_and, not_lt]
      exact hall
    simp only [source_error, hany, hlast]
    rfl

/-- C7, witness: two sources, the first ending with a decode error, the second
well-formed; the status is 0 and the error code is in the log. -/
theorem main_status_witness :
    ∃ res, main env_ex [] [src_bad, src_good] src_stdin = .ok res ∧ res.status = 0 ∧
      RC.error (-2) ∈ res.errors := by
  obtain ⟨res, h1, h2, h3⟩ := main_status env_ex [] [src_bad, src_good] src_stdin
    (init_globals env_ex) rfl (defined_of_all _ _ _ (by decide!))
  refine ⟨res, h1, h2, h3 src_bad (by simp) (-2) rfl ?_⟩
  intro r hr
  simp only [src_bad, List.mem_singleton] at hr
  subst hr
  decide!

/-- C7, counterexample: two sources, the first failing with a decode error
after its first record, the second well-formed; `main` returns the status 0. -/
theorem main_status_counterexample :
    src_bad.last = .error (-2) ∧ src_good.last = .MS_ENDOFFILE ∧
    main env_ex [] [src_bad, src_good] src_stdin
      = .ok ⟨0, [[50, 50, 50], [50, 50, 50], [20, 30]], [.error (-2)]⟩ := by
  refine ⟨rfl, rfl, ?_⟩
  decide!

/-- C8, the code at the failing input: a source of two records; the packer
fails on the first (it returns `-1`), `detide_record` returns 0 for it, the
read loop goes on, and the second record is corrected and written; no error is
logged for the source. -/
theorem driver_pack_error :
    (env_packfail_first.mst_packgroup
      ⟨['B', 'T', 'T'], 0, .finite 1, 3, 3, 'i', [89, 89, 89]⟩).precords = -1 ∧
    (src_two.records.map (record_ret env_packfail_first g_ex)) = [0, 2] ∧
    driver env_packfail_first g_ex [src_two] src_stdin = .ok ⟨[[59, 69]], []⟩ := by
  refine ⟨?_, ?_, ?_⟩ <;> decide!

end Msdetide
